import Mathlib

/-!
# IM chat broker: registry, command interpreter and broadcaster

A shallow embedding of `src/user.go` (`User`, `NewUser`, `Online`, `Offline`,
`SendMsg`, `DoMessage`, `ListenMessage`) and of the parts of `src/V0.3/server.go`
it calls (`Server.OnlineMap`, `Server.Message`, `Server.BroadCast`,
`Server.ListenMessager`).

Modelling decisions.

* A Go `string` is a sequence of bytes: `GoString := List UInt8`.  String literals of
  the source are their UTF-8 encodings (`utf8`).  `len(msg)` is `msg.length`,
  `msg[:k]` is `msg.take k`.
* `*User` pointers are natural numbers; the `User` objects live in `State.users`.
  A `chan string` is the list of messages sent on it and not yet received; a
  `net.Conn` is the list of chunks written to it (one element per `Write` call).
* `Server.OnlineMap` (`map[string]*User`) is an association list.  Go leaves the
  iteration order of a map unspecified; here the loops visit the list in order.
* `mapLock` has no content in a sequential run and is not represented.  The one place
  where the source reads the map outside the lock (the rename branch) is also given
  as three separately schedulable steps (`RenameTask`, `stepRename`).
* An out-of-range index is a Go run-time panic: `DoMessage` returns
  `Except RuntimeError State`.
-/

namespace IM

/-! ## Strings -/

/-- A Go string: an immutable sequence of bytes. -/
abbrev GoString := List UInt8

/-- UTF-8 bytes of a source literal. -/
def utf8 (s : String) : GoString := s.toUTF8.data.toList

/-- The separator byte `|` used by the command grammar. -/
def pipe : UInt8 := 124

/-- Go library function `strings.Split(s, sep)` for a one-byte separator: the pieces of `s` between
consecutive occurrences of `sep`; a string without `sep` yields the single piece `s`
(so `Split "" "|"` is `[""]`). -/
def Split (sep : UInt8) : GoString → List GoString
  | [] => [[]]
  | c :: cs =>
    if c = sep then [] :: Split sep cs
    else
      match Split sep cs with
      | [] => [[c]]
      | p :: ps => (c :: p) :: ps

/-! ## The registry map -/

/-- A `*User`. -/
abbrev UserPtr := Nat

/-- Type of `Server.OnlineMap`, `map[string]*User`. -/
abbrev OnlineMapT := List (GoString × UserPtr)

/-- Map read `v, ok := m[key]`: `none` when `ok` is false. -/
def mapGet : OnlineMapT → GoString → Option UserPtr
  | [], _ => none
  | (k, v) :: m, key => if k = key then some v else mapGet m key

/-- Go builtin `delete(m, key)`. -/
def mapDelete (m : OnlineMapT) (key : GoString) : OnlineMapT :=
  m.filter (fun e => decide (e.1 ≠ key))

/-- Map write `m[key] = v`. -/
def mapSet (m : OnlineMapT) (key : GoString) (v : UserPtr) : OnlineMapT :=
  mapDelete m key ++ [(key, v)]

/-! ## Data model -/

/-- The struct `User` of `src/user.go`.  `C` holds the messages sent on the user's channel and
not yet received by `ListenMessage`; `conn` holds the chunks written to the connection.
The field `server` is not represented: there is one server, the `State`. -/
structure User where
  Name : GoString
  Addr : GoString
  C : List GoString
  conn : List GoString

/-- The server (`OnlineMap`, `Message` of `src/V0.3/server.go`; `Ip` and `Port` are read by
`Start` only and are left out) together with the heap of `User` objects that the map's
pointers refer to.  `allocated` is the number of users created so far by `NewUser`. -/
structure State where
  OnlineMap : OnlineMapT
  Message : List GoString
  users : UserPtr → User
  allocated : Nat

/-- Run-time panics of the Go program. -/
inductive RuntimeError where
  | indexOutOfRange
  deriving DecidableEq, Repr

/-- A user object that was never allocated. -/
def User.zero : User := { Name := [], Addr := [], C := [], conn := [] }

/-- `NewServer`: empty map, empty broadcast channel, no users. -/
def NewServer : State :=
  { OnlineMap := [], Message := [], users := fun _ => User.zero, allocated := 0 }

/-! ## `src/V0.3/server.go` -/

/-- `Server.BroadCast(user, msg)`: sends `"[" + user.Addr + "]" + user.Name + ":" + msg`
on `Message`. -/
def BroadCast (s : State) (user : UserPtr) (msg : GoString) : State :=
  { s with Message := s.Message ++
      [utf8 "[" ++ (s.users user).Addr ++ utf8 "]" ++ (s.users user).Name ++ utf8 ":" ++ msg] }

/-- The channel send `cli.C <- msg`. -/
def chanSend (s : State) (cli : UserPtr) (msg : GoString) : State :=
  { s with
    users := Function.update s.users cli
      { (s.users cli) with C := (s.users cli).C ++ [msg] } }

/-- One iteration of the loop of `Server.ListenMessager`: receive the next message from
`Message` (`none`: the receive blocks) and send it on the channel of every user in
`OnlineMap`. -/
def ListenMessager (s : State) : Option State :=
  match s.Message with
  | [] => none
  | msg :: rest =>
    some (s.OnlineMap.foldl (fun acc e => chanSend acc e.2 msg) { s with Message := rest })

/-! ## `src/user.go` -/

/-- One iteration of the loop of `User.ListenMessage`: receive from `this.C` (`none`: the
receive blocks) and write `msg + "\n"` to the connection. -/
def ListenMessage (s : State) (this : UserPtr) : Option State :=
  match (s.users this).C with
  | [] => none
  | msg :: rest =>
    some { s with
      users := Function.update s.users this
        { (s.users this) with C := rest, conn := (s.users this).conn ++ [msg ++ utf8 "\n"] } }

/-- `NewUser(conn, server)`, where `userAddr` is `conn.RemoteAddr().String()`: allocates
a user whose `Name` and `Addr` are both the remote address. -/
def NewUser (s : State) (userAddr : GoString) : State × UserPtr :=
  ({ s with
      users := Function.update s.users s.allocated
        { Name := userAddr, Addr := userAddr, C := [], conn := [] }
      allocated := s.allocated + 1 },
   s.allocated)

/-- `User.Online`. -/
def Online (s : State) (this : UserPtr) : State :=
  BroadCast { s with OnlineMap := mapSet s.OnlineMap (s.users this).Name this } this
    (utf8 "已上线")

/-- `User.Offline`. -/
def Offline (s : State) (this : UserPtr) : State :=
  BroadCast { s with OnlineMap := mapDelete s.OnlineMap (s.users this).Name } this
    (utf8 "已下线")

/-- `User.SendMsg(msg)`: `this.conn.Write([]byte(msg))`. -/
def SendMsg (s : State) (this : UserPtr) (msg : GoString) : State :=
  { s with
    users := Function.update s.users this
      { (s.users this) with conn := (s.users this).conn ++ [msg] } }

/-- Lines 110-113 of `DoMessage`: under the lock, delete the old key and map `newName`
to `this`. -/
def renameUpdateMap (s : State) (this : UserPtr) (newName : GoString) : State :=
  { s with OnlineMap := mapSet (mapDelete s.OnlineMap (s.users this).Name) newName this }

/-- Lines 115-116 of `DoMessage`: `this.Name = newName`, then the confirmation built
from `this.Name`. -/
def renameSetName (s : State) (this : UserPtr) (newName : GoString) : State :=
  let s1 : State :=
    { s with users := Function.update s.users this { (s.users this) with Name := newName } }
  SendMsg s1 this (utf8 "您已更新用户名为：" ++ (s1.users this).Name ++ utf8 "\n")

/-- Line 90 of `DoMessage`:
`onlineMsg := "[" + user.Addr + "]" + user.Name + ":" + "当前在线...\n"`. -/
def onlineMsg (user : User) : GoString :=
  utf8 "[" ++ user.Addr ++ utf8 "]" ++ user.Name ++ utf8 ":" ++ utf8 "当前在线...\n"

/-- `User.DoMessage(msg)`. -/
def DoMessage (s : State) (this : UserPtr) (msg : GoString) : Except RuntimeError State :=
  if msg = utf8 "who" then
    .ok (s.OnlineMap.foldl (fun acc e => SendMsg acc this (onlineMsg (acc.users e.2))) s)
  else if msg.length > 7 ∧ msg.take 7 = utf8 "rename|" then
    match (Split pipe msg)[1]? with
    | none => .error .indexOutOfRange
    | some newName =>
      if (mapGet s.OnlineMap newName).isSome then
        .ok (SendMsg s this (utf8 "当前用户名已被使用！\n"))
      else
        .ok (renameSetName (renameUpdateMap s this newName) this newName)
  else if msg.length > 3 ∧ msg.take 3 = utf8 "to|" then
    match (Split pipe msg)[1]? with
    | none => .error .indexOutOfRange
    | some remoteName =>
      if remoteName = utf8 "" then
        .ok (SendMsg s this (utf8 "消息格式不正确，请使用\"to|对方用户名|消息内容\"格式。\n"))
      else
        match mapGet s.OnlineMap remoteName with
        | none => .ok (SendMsg s this (utf8 "该用户名不存在！\n"))
        | some remoteUser =>
          match (Split pipe msg)[2]? with
          | none => .error .indexOutOfRange
          | some content =>
            if content = utf8 "" then
              .ok (SendMsg s this (utf8 "消息内容为空！请重新输入！\n"))
            else
              .ok (SendMsg s remoteUser ((s.users this).Name ++ utf8 "对您说：" ++ content))
  else
    .ok (BroadCast s this msg)

/-! ## The rename branch as separately scheduled steps

Line 102 of `DoMessage` reads `OnlineMap` without holding `mapLock`; lines 110-113 update
it under the lock; lines 115-116 run after the lock is released.  Between these three
points another goroutine can run. -/

/-- Where a goroutine stands inside the rename branch of `DoMessage`. -/
inductive RenamePc where
  /-- before line 102 -/
  | atCheck
  /-- after line 102, holding the result `ok` of the existence check -/
  | atBranch (ok : Bool)
  /-- after line 113 (map updated, lock released), before line 115 -/
  | atSetName
  /-- the branch is finished -/
  | done
  deriving DecidableEq, Repr

/-- A goroutine executing the rename branch for user `this` and name `newName`. -/
structure RenameTask where
  this : UserPtr
  newName : GoString
  pc : RenamePc

/-- One atomic step of a rename task. -/
def stepRename (s : State) (t : RenameTask) : State × RenameTask :=
  match t.pc with
  | .atCheck => (s, { t with pc := .atBranch (mapGet s.OnlineMap t.newName).isSome })
  | .atBranch true => (SendMsg s t.this (utf8 "当前用户名已被使用！\n"), { t with pc := .done })
  | .atBranch false => (renameUpdateMap s t.this t.newName, { t with pc := .atSetName })
  | .atSetName => (renameSetName s t.this t.newName, { t with pc := .done })
  | .done => (s, t)

/-- Runs two rename tasks under a schedule: `false` lets the first task take its next
step, `true` the second. -/
def runTwo (s : State) (a b : RenameTask) : List Bool → State × RenameTask × RenameTask
  | [] => (s, a, b)
  | false :: sched => runTwo (stepRename s a).1 (stepRename s a).2 b sched
  | true :: sched => runTwo (stepRename s b).1 a (stepRename s b).2 sched

/-! ## Sequences of joins, renames and leaves -/

/-- What a connection does to the registry. -/
inductive Event where
  /-- a connection from `addr` is accepted: `NewUser` then `Online` -/
  | join (addr : GoString)
  /-- user `this` sends the line `rename|newName` -/
  | rename (this : UserPtr) (newName : GoString)
  /-- user `this` disconnects: `Offline` -/
  | leave (this : UserPtr)

/-- Effect of one event. -/
def step (s : State) : Event → Except RuntimeError State
  | .join addr => .ok (Online (NewUser s addr).1 (NewUser s addr).2)
  | .rename this newName => DoMessage s this (utf8 "rename|" ++ newName)
  | .leave this => .ok (Offline s this)

/-- Effect of a sequence of events. -/
def run (s : State) : List Event → Except RuntimeError State
  | [] => .ok s
  | e :: es =>
    match step s e with
    | .ok s1 => run s1 es
    | .error err => .error err

/-- The users that leave during `es`. -/
def departed : List Event → List UserPtr
  | [] => []
  | .leave this :: es => this :: departed es
  | _ :: es => departed es

/-- The users that join during `es` and do not leave afterwards, when the first user
created by `es` gets pointer `next`. -/
def live (next : Nat) : List Event → List UserPtr
  | [] => []
  | .join _ :: es =>
    if next ∈ departed es then live (next + 1) es else next :: live (next + 1) es
  | _ :: es => live next es

/-! ## Registry invariant -/

/-- No name occurs twice as a key: the association list is a map. -/
def NodupKeys (m : OnlineMapT) : Prop := (m.map Prod.fst).Nodup

/-- The registry is keyed by display name: it is a map, every entry's key is the `Name`
of the user it points to, and it points to allocated users only. -/
def Consistent (s : State) : Prop :=
  NodupKeys s.OnlineMap ∧
  (∀ e ∈ s.OnlineMap, (s.users e.2).Name = e.1) ∧
  (∀ e ∈ s.OnlineMap, e.2 < s.allocated)

/-- User `v` is a value of the registry. -/
def Registered (s : State) (v : UserPtr) : Prop := ∃ k, (k, v) ∈ s.OnlineMap

/-- No registry key and no user name contains the separator `|`. -/
def PipeFree (s : State) : Prop :=
  (∀ e ∈ s.OnlineMap, pipe ∉ e.1) ∧ (∀ v, pipe ∉ (s.users v).Name)

/-- Every connection of the sequence comes from a remote address without `|`, as the
`ip:port` strings of the TCP listener are. -/
def pipeFreeAddrs : List Event → Prop
  | [] => True
  | .join addr :: es => pipe ∉ addr ∧ pipeFreeAddrs es
  | _ :: es => pipeFreeAddrs es

/-! ## Concrete scenarios -/

/-- Two connections, from `10.0.0.1:1` and then from `10.0.0.2:2`, have joined: users `0`
and `1`, each registered under its address. -/
def twoJoined : State :=
  Online (NewUser (Online (NewUser NewServer (utf8 "10.0.0.1:1")).1 0) (utf8 "10.0.0.2:2")).1 1

/-- Participant A of the spec scenario: a single connection from `1.2.3.4:5` has joined. -/
def loneJoined : State :=
  Online (NewUser NewServer (utf8 "1.2.3.4:5")).1 0

/-- User 0 joins from `10.0.0.2:7` and renames itself to `10.0.0.1:5`; then a
connection from `10.0.0.1:5` joins. -/
def collisionTrace : List Event :=
  [.join (utf8 "10.0.0.2:7"), .rename 0 (utf8 "10.0.0.1:5"), .join (utf8 "10.0.0.1:5")]

/-- Both tasks run line 102 before either reaches line 110. -/
def raceSchedule : List Bool := [false, true, false, false, true, true]

/-- The two goroutines of the race: users 0 and 1 of `twoJoined` both process
`rename|carol`, interleaved by `raceSchedule`. -/
def raceOutcome : State × RenameTask × RenameTask :=
  runTwo twoJoined
    { this := 0, newName := utf8 "carol", pc := .atCheck }
    { this := 1, newName := utf8 "carol", pc := .atCheck }
    raceSchedule

/-- Every `rename` and `leave` of the sequence is issued by a user created before it,
when `alloc` users exist at the start. -/
def wellFormed (alloc : Nat) : List Event → Prop
  | [] => True
  | .join _ :: es => wellFormed (alloc + 1) es
  | .rename this _ :: es => this < alloc ∧ wellFormed alloc es
  | .leave this :: es => this < alloc ∧ wellFormed alloc es

/-! ## Literals -/

theorem utf8_who : utf8 "who" = [119, 104, 111] := by decide

theorem utf8_rename : utf8 "rename|" = [114, 101, 110, 97, 109, 101, 124] := by decide

theorem utf8_to : utf8 "to|" = [116, 111, 124] := by decide

theorem utf8_empty : utf8 "" = [] := by decide

/-! ## `Split` -/

theorem Split_ne_nil (sep : UInt8) (s : GoString) : Split sep s ≠ [] := by
  cases s with
  | nil => simp [Split]
  | cons c cs =>
    unfold Split
    split
    · simp
    · split <;> simp

theorem Split_of_not_mem (sep : UInt8) (a : GoString) (h : sep ∉ a) : Split sep a = [a] := by
  induction a with
  | nil => rfl
  | cons c cs ih =>
    have hc : c ≠ sep := fun e => h (by simp [e])
    have hcs : sep ∉ cs := fun e => h (by simp [e])
    simp [Split, hc, ih hcs]

theorem Split_append_sep (sep : UInt8) (a b : GoString) (h : sep ∉ a) :
    Split sep (a ++ sep :: b) = a :: Split sep b := by
  induction a with
  | nil => simp [Split]
  | cons c cs ih =>
    have hc : c ≠ sep := fun e => h (by simp [e])
    have hcs : sep ∉ cs := fun e => h (by simp [e])
    simp [Split, hc, ih hcs]

theorem Split_rename (rest : GoString) :
    Split pipe (utf8 "rename|" ++ rest) = [114, 101, 110, 97, 109, 101] :: Split pipe rest := by
  have := Split_append_sep pipe [114, 101, 110, 97, 109, 101] rest (by decide)
  simpa [utf8_rename, pipe] using this

theorem Split_to (rest : GoString) :
    Split pipe (utf8 "to|" ++ rest) = [116, 111] :: Split pipe rest := by
  have := Split_append_sep pipe [116, 111] rest (by decide)
  simpa [utf8_to, pipe] using this

/-- A string either has no separator or splits at its first one. -/
theorem exists_first_sep (sep : UInt8) (s : GoString) :
    sep ∉ s ∨ ∃ a b, s = a ++ sep :: b ∧ sep ∉ a := by
  induction s with
  | nil => left; simp
  | cons c cs ih =>
    by_cases hc : c = sep
    · right; exact ⟨[], cs, by simp [hc], by simp⟩
    · rcases ih with h | ⟨a, b, hab, ha⟩
      · left
        intro hmem
        rcases List.mem_cons.mp hmem with h1 | h1
        · exact hc h1.symm
        · exact h h1
      · right
        refine ⟨c :: a, b, by simp [hab], ?_⟩
        intro hmem
        rcases List.mem_cons.mp hmem with h1 | h1
        · exact hc h1.symm
        · exact ha h1

/-- The first piece of a split is the text before the first separator. -/
theorem Split_head (sep : UInt8) (s : GoString) :
    ∃ p ps, Split sep s = p :: ps ∧ sep ∉ p ∧ (p = [] → s = [] ∨ ∃ b, s = sep :: b) := by
  rcases exists_first_sep sep s with h | ⟨a, b, hab, ha⟩
  · refine ⟨s, [], Split_of_not_mem sep s h, h, fun e => Or.inl e⟩
  · refine ⟨a, Split sep b, by rw [hab, Split_append_sep sep a b ha], ha, ?_⟩
    intro e
    right
    exact ⟨b, by simp [hab, e]⟩

/-! ## The registry map -/

theorem mem_mapDelete (m : OnlineMapT) (key : GoString) (e : GoString × UserPtr) :
    e ∈ mapDelete m key ↔ e ∈ m ∧ e.1 ≠ key := by
  simp [mapDelete]

theorem mem_mapSet (m : OnlineMapT) (key : GoString) (v : UserPtr) (e : GoString × UserPtr) :
    e ∈ mapSet m key v ↔ (e ∈ m ∧ e.1 ≠ key) ∨ e = (key, v) := by
  simp [mapSet, mem_mapDelete]

theorem mapGet_eq_none_iff (m : OnlineMapT) (key : GoString) :
    mapGet m key = none ↔ ∀ e ∈ m, e.1 ≠ key := by
  induction m with
  | nil => simp [mapGet]
  | cons x m ih =>
    obtain ⟨k, v⟩ := x
    by_cases hk : k = key
    · simp [mapGet, hk]
    · simp [mapGet, hk, ih]

theorem mem_of_mapGet_eq_some (m : OnlineMapT) (key : GoString) (v : UserPtr)
    (h : mapGet m key = some v) : (key, v) ∈ m := by
  induction m with
  | nil => simp [mapGet] at h
  | cons x m ih =>
    obtain ⟨k, w⟩ := x
    by_cases hk : k = key
    · simp [mapGet, hk] at h
      simp [hk, h]
    · simp [mapGet, hk] at h
      exact List.mem_cons_of_mem _ (ih h)

theorem mapGet_append (m m2 : OnlineMapT) (key : GoString) :
    mapGet (m ++ m2) key = (mapGet m key).orElse (fun _ => mapGet m2 key) := by
  induction m with
  | nil => simp [mapGet]
  | cons x m ih =>
    obtain ⟨k, w⟩ := x
    by_cases hk : k = key
    · simp [mapGet, hk]
    · simp [mapGet, hk, ih]

theorem mapGet_mapDelete_self (m : OnlineMapT) (key : GoString) :
    mapGet (mapDelete m key) key = none := by
  rw [mapGet_eq_none_iff]
  intro e he
  exact ((mem_mapDelete m key e).mp he).2

theorem mapGet_mapDelete_of_ne (m : OnlineMapT) (key k : GoString) (h : k ≠ key) :
    mapGet (mapDelete m key) k = mapGet m k := by
  induction m with
  | nil => rfl
  | cons x m ih =>
    obtain ⟨k0, w⟩ := x
    have h2 : key ≠ k := fun e => h e.symm
    unfold mapDelete at ih ⊢
    by_cases hk : k0 = key
    · subst hk
      simpa [List.filter_cons, mapGet, h2] using ih
    · by_cases hk2 : k0 = k
      · subst hk2
        simp [List.filter_cons, mapGet, hk]
      · simpa [List.filter_cons, mapGet, hk, hk2] using ih

theorem mapGet_mapSet_self (m : OnlineMapT) (key : GoString) (v : UserPtr) :
    mapGet (mapSet m key v) key = some v := by
  simp [mapSet, mapGet_append, mapGet_mapDelete_self, mapGet]

theorem mapGet_mapSet_of_ne (m : OnlineMapT) (key k : GoString) (v : UserPtr) (h : k ≠ key) :
    mapGet (mapSet m key v) k = mapGet m k := by
  have h2 : key ≠ k := fun e => h e.symm
  simp [mapSet, mapGet_append, mapGet_mapDelete_of_ne m key k h, mapGet, h2]

theorem mapGet_of_mem (m : OnlineMapT) (hm : NodupKeys m) (key : GoString) (v : UserPtr)
    (h : (key, v) ∈ m) : mapGet m key = some v := by
  induction m with
  | nil => simp at h
  | cons x m ih =>
    obtain ⟨k, w⟩ := x
    simp only [NodupKeys, List.map_cons, List.nodup_cons] at hm
    rcases List.mem_cons.mp h with h1 | h1
    · cases h1
      simp [mapGet]
    · have hk : k ≠ key := by
        intro e
        exact hm.1 (List.mem_map.mpr ⟨(key, v), h1, by simp [e]⟩)
      simp [mapGet, hk]
      exact ih hm.2 h1

theorem NodupKeys_mapDelete (m : OnlineMapT) (key : GoString) (h : NodupKeys m) :
    NodupKeys (mapDelete m key) := by
  unfold NodupKeys mapDelete
  exact (List.Nodup.sublist (List.Sublist.map _ (List.filter_sublist m)) h)

theorem NodupKeys_mapSet (m : OnlineMapT) (key : GoString) (v : UserPtr) (h : NodupKeys m) :
    NodupKeys (mapSet m key v) := by
  have h1 := NodupKeys_mapDelete m key h
  unfold NodupKeys mapSet at *
  rw [List.map_append, List.nodup_append]
  refine ⟨h1, by simp, ?_⟩
  intro a ha hb
  simp at hb
  obtain ⟨e, he, rfl⟩ := List.mem_map.mp ha
  exact ((mem_mapDelete m key e).mp he).2 hb

/-! ## Writes and sends -/

@[simp] theorem SendMsg_OnlineMap (s : State) (this : UserPtr) (msg : GoString) :
    (SendMsg s this msg).OnlineMap = s.OnlineMap := rfl

@[simp] theorem SendMsg_Message (s : State) (this : UserPtr) (msg : GoString) :
    (SendMsg s this msg).Message = s.Message := rfl

@[simp] theorem SendMsg_allocated (s : State) (this : UserPtr) (msg : GoString) :
    (SendMsg s this msg).allocated = s.allocated := rfl

@[simp] theorem SendMsg_users_self (s : State) (this : UserPtr) (msg : GoString) :
    (SendMsg s this msg).users this =
      { (s.users this) with conn := (s.users this).conn ++ [msg] } := by
  simp [SendMsg]

theorem SendMsg_users_of_ne (s : State) (this v : UserPtr) (msg : GoString) (h : v ≠ this) :
    (SendMsg s this msg).users v = s.users v := by
  simp [SendMsg, Function.update_noteq h]

theorem SendMsg_users_Name (s : State) (this v : UserPtr) (msg : GoString) :
    ((SendMsg s this msg).users v).Name = (s.users v).Name := by
  by_cases h : v = this
  · subst h; simp
  · rw [SendMsg_users_of_ne s this v msg h]

theorem SendMsg_users_Addr (s : State) (this v : UserPtr) (msg : GoString) :
    ((SendMsg s this msg).users v).Addr = (s.users v).Addr := by
  by_cases h : v = this
  · subst h; simp
  · rw [SendMsg_users_of_ne s this v msg h]

theorem onlineMsg_SendMsg (s : State) (this v : UserPtr) (msg : GoString) :
    onlineMsg ((SendMsg s this msg).users v) = onlineMsg (s.users v) := by
  simp [onlineMsg, SendMsg_users_Name, SendMsg_users_Addr]

/-- The loop of the `who` branch appends one roster line per map entry to the
requester's connection and changes nothing else. -/
theorem who_loop (m : OnlineMapT) (s : State) (this : UserPtr) :
    m.foldl (fun acc e => SendMsg acc this (onlineMsg (acc.users e.2))) s =
      { s with
        users := Function.update s.users this
          { (s.users this) with
            conn := (s.users this).conn ++ m.map (fun e => onlineMsg (s.users e.2)) } } := by
  induction m generalizing s with
  | nil => simp
  | cons x m ih =>
    rw [List.foldl_cons, ih]
    simp only [onlineMsg_SendMsg]
    simp [SendMsg, List.append_assoc]

theorem chanSend_users_of_ne (s : State) (cli v : UserPtr) (msg : GoString) (h : v ≠ cli) :
    (chanSend s cli msg).users v = s.users v := by
  simp [chanSend, Function.update_noteq h]

/-- The fan-out loop of `ListenMessager` sends the message once per map entry: user `v`
gets it as many times as there are entries that point to `v`. -/
theorem fanout_loop (m : OnlineMapT) (s : State) (msg : GoString) :
    m.foldl (fun acc e => chanSend acc e.2 msg) s =
      { s with
        users := fun v =>
          { (s.users v) with
            C := (s.users v).C ++ List.replicate ((m.map Prod.snd).count v) msg } } := by
  induction m generalizing s with
  | nil => simp
  | cons x m ih =>
    rw [List.foldl_cons, ih]
    simp only [chanSend]
    congr 1
    funext v
    by_cases h : v = x.2
    · subst h
      simp [List.replicate_succ, List.count_cons]
    · have h2 : ¬ x.2 = v := fun e => h e.symm
      simp [Function.update_noteq h, List.count_cons, h2]

/-! ## Dispatch of `DoMessage` -/

theorem DoMessage_who (s : State) (this : UserPtr) :
    DoMessage s this (utf8 "who") =
      .ok { s with
        users := Function.update s.users this
          { (s.users this) with
            conn := (s.users this).conn ++
              s.OnlineMap.map (fun e => onlineMsg (s.users e.2)) } } := by
  simp [DoMessage, who_loop]

/-- The rename branch: the new name is the first piece of the text after `rename|`. -/
theorem DoMessage_rename (s : State) (this : UserPtr) (rest newName : GoString)
    (tl : List GoString) (h : rest ≠ []) (hs : Split pipe rest = newName :: tl) :
    DoMessage s this (utf8 "rename|" ++ rest) =
      if (mapGet s.OnlineMap newName).isSome then
        .ok (SendMsg s this (utf8 "当前用户名已被使用！\n"))
      else
        .ok (renameSetName (renameUpdateMap s this newName) this newName) := by
  have hlen : 0 < rest.length := List.length_pos.mpr h
  have h1 : utf8 "rename|" ++ rest ≠ utf8 "who" := by
    rw [utf8_rename, utf8_who]; simp
  have h2 : (utf8 "rename|" ++ rest).length > 7 ∧
      (utf8 "rename|" ++ rest).take 7 = utf8 "rename|" := by
    rw [utf8_rename]; simp; omega
  unfold DoMessage
  rw [if_neg h1, if_pos h2, Split_rename, hs]
  simp

/-- The directed-message branch: the target is the first piece of the text after `to|`,
the content is the second piece. -/
theorem DoMessage_to (s : State) (this : UserPtr) (rest remoteName : GoString)
    (tl : List GoString) (h : rest ≠ []) (hs : Split pipe rest = remoteName :: tl) :
    DoMessage s this (utf8 "to|" ++ rest) =
      if remoteName = [] then
        .ok (SendMsg s this (utf8 "消息格式不正确，请使用\"to|对方用户名|消息内容\"格式。\n"))
      else
        match mapGet s.OnlineMap remoteName with
        | none => .ok (SendMsg s this (utf8 "该用户名不存在！\n"))
        | some remoteUser =>
          match tl.head? with
          | none => .error .indexOutOfRange
          | some content =>
            if content = [] then
              .ok (SendMsg s this (utf8 "消息内容为空！请重新输入！\n"))
            else
              .ok (SendMsg s remoteUser ((s.users this).Name ++ utf8 "对您说：" ++ content)) := by
  have hlen : 0 < rest.length := List.length_pos.mpr h
  have h1 : utf8 "to|" ++ rest ≠ utf8 "who" := by
    rw [utf8_to, utf8_who]; simp
  have h2 : ¬ ((utf8 "to|" ++ rest).length > 7 ∧
      (utf8 "to|" ++ rest).take 7 = utf8 "rename|") := by
    rw [utf8_to, utf8_rename]; simp
  have h3 : (utf8 "to|" ++ rest).length > 3 ∧
      (utf8 "to|" ++ rest).take 3 = utf8 "to|" := by
    rw [utf8_to]; simp; omega
  unfold DoMessage
  rw [if_neg h1, if_neg h2, if_pos h3, Split_to, hs]
  simp only [utf8_empty]
  cases tl <;> simp

/-- Every other line is published as chat text. -/
theorem DoMessage_chat (s : State) (this : UserPtr) (msg : GoString)
    (h1 : msg ≠ utf8 "who") (h2 : ¬ utf8 "rename|" <+: msg) (h3 : ¬ utf8 "to|" <+: msg) :
    DoMessage s this msg = .ok (BroadCast s this msg) := by
  have h2' : ¬ (msg.length > 7 ∧ msg.take 7 = utf8 "rename|") :=
    fun h => h2 (h.2 ▸ List.take_prefix 7 msg)
  have h3' : ¬ (msg.length > 3 ∧ msg.take 3 = utf8 "to|") :=
    fun h => h3 (h.2 ▸ List.take_prefix 3 msg)
  unfold DoMessage
  rw [if_neg h1, if_neg h2', if_neg h3']

/-! ## Claims -/

/-- C6. On the line `who`, `DoMessage` completes, appends to the requester's connection
exactly one roster line `[<addr>]<name>:当前在线...\n` per registry entry, in the order the
loop visits them, and nothing else; it leaves the requester's name, address and channel,
every other user, the broadcast channel and the registry unchanged.  In the scenario
where a single participant has joined from `1.2.3.4:5`, the requester's connection
receives exactly the one line `[1.2.3.4:5]1.2.3.4:5:当前在线...\n`. -/
theorem who_lists_roster :
    (∀ (s : State) (this : UserPtr), ∃ s', DoMessage s this (utf8 "who") = .ok s' ∧
      (s'.users this).conn = (s.users this).conn ++
        s.OnlineMap.map (fun e =>
          utf8 "[" ++ (s.users e.2).Addr ++ utf8 "]" ++ (s.users e.2).Name ++ utf8 ":"
            ++ utf8 "当前在线...\n") ∧
      (s'.users this).Name = (s.users this).Name ∧
      (s'.users this).Addr = (s.users this).Addr ∧
      (s'.users this).C = (s.users this).C ∧
      (∀ v, v ≠ this → s'.users v = s.users v) ∧
      s'.Message = s.Message ∧
      s'.OnlineMap = s.OnlineMap) ∧
    (∃ s', DoMessage loneJoined 0 (utf8 "who") = .ok s' ∧
      (s'.users 0).conn = [utf8 "[1.2.3.4:5]1.2.3.4:5:当前在线...\n"]) := by
  refine ⟨?_, ?_⟩
  · intro s this
    refine ⟨_, DoMessage_who s this, ?_⟩
    refine ⟨?_, ?_, ?_, ?_, ?_, rfl, rfl⟩
    · simp [onlineMsg]
    · simp
    · simp
    · simp
    · intro v hv
      simp [Function.update_noteq hv]
  · exact ⟨_, DoMessage_who loneJoined 0, by simp; decide⟩

/-- C8. For a target field `t` (the text between `to|` and the next `|` or the end of
the line) that is non-empty and is not a key of the registry, `DoMessage` completes,
appends exactly `该用户名不存在！\n` to the sender's connection and changes nothing else:
every other user (connection and channel), the sender's channel and name, the broadcast
channel and the registry stay as they were. -/
theorem to_unknown_target (s : State) (this : UserPtr) (t rest : GoString)
    (ht : t ≠ []) (hpipe : pipe ∉ t) (hrest : rest = [] ∨ ∃ r, rest = pipe :: r)
    (hkey : mapGet s.OnlineMap t = none) :
    ∃ s', DoMessage s this (utf8 "to|" ++ t ++ rest) = .ok s' ∧
      s'.users this =
        { (s.users this) with conn := (s.users this).conn ++ [utf8 "该用户名不存在！\n"] } ∧
      (∀ v, v ≠ this → s'.users v = s.users v) ∧
      s'.Message = s.Message ∧
      s'.OnlineMap = s.OnlineMap := by
  have hsplit : ∃ tl, Split pipe (t ++ rest) = t :: tl := by
    rcases hrest with h | ⟨r, h⟩
    · subst h
      exact ⟨[], by simpa using Split_of_not_mem pipe t hpipe⟩
    · subst h
      exact ⟨Split pipe r, Split_append_sep pipe t r hpipe⟩
  obtain ⟨tl, htl⟩ := hsplit
  have hne : t ++ rest ≠ [] := by simp [ht]
  have h := DoMessage_to s this (t ++ rest) t tl hne htl
  rw [if_neg ht, hkey] at h
  rw [List.append_assoc]
  refine ⟨_, h, by simp, ?_, rfl, rfl⟩
  intro v hv
  exact SendMsg_users_of_ne s this v _ hv

/-- Witness for C8: user 1 of `twoJoined` sends `to|carol|hi`. -/
theorem to_unknown_target_witness :
    ∃ s', DoMessage twoJoined 1 (utf8 "to|" ++ utf8 "carol" ++ utf8 "|hi") = .ok s' ∧
      s'.users 1 =
        { (twoJoined.users 1) with
          conn := (twoJoined.users 1).conn ++ [utf8 "该用户名不存在！\n"] } ∧
      (∀ v, v ≠ 1 → s'.users v = twoJoined.users v) ∧
      s'.Message = twoJoined.Message ∧
      s'.OnlineMap = twoJoined.OnlineMap :=
  to_unknown_target twoJoined 1 (utf8 "carol") (utf8 "|hi") (by decide) (by decide)
    (Or.inr ⟨utf8 "hi", by decide⟩) (by decide)

/-- The state reached by a successful rename. -/
theorem rename_result (s : State) (this : UserPtr) (n : GoString) :
    (renameSetName (renameUpdateMap s this n) this n).OnlineMap =
        mapSet (mapDelete s.OnlineMap (s.users this).Name) n this ∧
    (renameSetName (renameUpdateMap s this n) this n).users this =
        { (s.users this) with
          Name := n
          conn := (s.users this).conn ++ [utf8 "您已更新用户名为：" ++ n ++ utf8 "\n"] } ∧
    (∀ v, v ≠ this → (renameSetName (renameUpdateMap s this n) this n).users v = s.users v) ∧
    (renameSetName (renameUpdateMap s this n) this n).Message = s.Message ∧
    (renameSetName (renameUpdateMap s this n) this n).allocated = s.allocated := by
  refine ⟨rfl, ?_, ?_, rfl, rfl⟩
  · simp [renameSetName, renameUpdateMap, SendMsg]
  · intro v hv
    simp [renameSetName, renameUpdateMap, SendMsg, Function.update_noteq hv]

/-- C2. When the requester is registered under its current name and `n` is non-empty,
contains no `|` and is not a key of the registry, `DoMessage` on `rename|n` completes;
afterwards the old key is absent, `n` maps to the requester, every other key maps to what
it mapped to before, the requester's name is `n`, the requester's connection has received
exactly `您已更新用户名为：n\n`, every other user is unchanged and nothing was published.
A `who` processed next for any participant `p` appends to the connection of `p` one line
per entry of the new registry; that registry contains the entry `n ↦ requester`, whose
line is `[addr]n:当前在线...\n`, and no entry keyed by the old name; and when the registry
was keyed by its users' names, no listed user bears the old name. -/
theorem rename_to_free_name (s : State) (this : UserPtr) (n : GoString)
    (hreg : mapGet s.OnlineMap (s.users this).Name = some this)
    (hne : n ≠ []) (hpipe : pipe ∉ n) (hfree : mapGet s.OnlineMap n = none) :
    ∃ s', DoMessage s this (utf8 "rename|" ++ n) = .ok s' ∧
      mapGet s'.OnlineMap (s.users this).Name = none ∧
      mapGet s'.OnlineMap n = some this ∧
      (∀ k, k ≠ (s.users this).Name → k ≠ n → mapGet s'.OnlineMap k = mapGet s.OnlineMap k) ∧
      s'.users this =
        { (s.users this) with
          Name := n
          conn := (s.users this).conn ++ [utf8 "您已更新用户名为：" ++ n ++ utf8 "\n"] } ∧
      (∀ v, v ≠ this → s'.users v = s.users v) ∧
      s'.Message = s.Message ∧
      (∀ p, ∃ s2, DoMessage s' p (utf8 "who") = .ok s2 ∧
        (s2.users p).conn = (s'.users p).conn ++
          s'.OnlineMap.map (fun e => onlineMsg (s'.users e.2)) ∧
        (n, this) ∈ s'.OnlineMap ∧
        onlineMsg (s'.users this) =
          utf8 "[" ++ (s.users this).Addr ++ utf8 "]" ++ n ++ utf8 ":" ++ utf8 "当前在线...\n" ∧
        (∀ e ∈ s'.OnlineMap, e.1 ≠ (s.users this).Name) ∧
        (Consistent s → ∀ e ∈ s'.OnlineMap, (s'.users e.2).Name ≠ (s.users this).Name)) := by
  have hold : (s.users this).Name ≠ n := by
    intro e
    rw [e, hfree] at hreg
    cases hreg
  have hd := DoMessage_rename s this n n [] hne (Split_of_not_mem pipe n hpipe)
  rw [hfree] at hd
  simp only [Option.isSome_none, Bool.false_eq_true, if_false] at hd
  obtain ⟨hmap, hthis, hothers, hmsg, -⟩ := rename_result s this n
  refine ⟨_, hd, ?_, ?_, ?_, hthis, hothers, hmsg, ?_⟩
  · rw [hmap, mapGet_mapSet_of_ne _ _ _ _ hold, mapGet_mapDelete_self]
  · rw [hmap, mapGet_mapSet_self]
  · intro k hk1 hk2
    rw [hmap, mapGet_mapSet_of_ne _ _ _ _ hk2, mapGet_mapDelete_of_ne _ _ _ hk1]
  · intro p
    have hkeys : ∀ e ∈ (renameSetName (renameUpdateMap s this n) this n).OnlineMap,
        e.1 ≠ (s.users this).Name := by
      intro e he
      rw [hmap, mem_mapSet, mem_mapDelete] at he
      rcases he with ⟨⟨-, h1⟩, -⟩ | h1
      · exact h1
      · rw [h1]; exact fun e => hold e.symm
    refine ⟨_, DoMessage_who _ p, by simp, ?_, ?_, hkeys, ?_⟩
    · rw [hmap, mem_mapSet]; exact Or.inr rfl
    · rw [hthis]; rfl
    · intro hc e he
      have hk := hkeys e he
      rw [hmap, mem_mapSet, mem_mapDelete] at he
      rcases he with ⟨⟨h0, h1⟩, -⟩ | h1
      · have hv : e.2 ≠ this := by
          intro ev
          have := hc.2.1 e h0
          rw [ev] at this
          exact h1 this.symm
        rw [hothers e.2 hv, hc.2.1 e h0]
        exact h1
      · rw [h1, hthis]
        exact fun e => hold e.symm

/-- Witness for C2: user 0 of `twoJoined` sends `rename|alice`. -/
theorem rename_to_free_name_witness :
    mapGet twoJoined.OnlineMap (twoJoined.users 0).Name = some 0 ∧
    utf8 "alice" ≠ [] ∧ pipe ∉ utf8 "alice" ∧
    mapGet twoJoined.OnlineMap (utf8 "alice") = none ∧
    ∃ s', DoMessage twoJoined 0 (utf8 "rename|" ++ utf8 "alice") = .ok s' ∧
      mapGet s'.OnlineMap (utf8 "10.0.0.1:1") = none ∧
      mapGet s'.OnlineMap (utf8 "alice") = some 0 ∧
      (s'.users 0).Name = utf8 "alice" ∧
      (s'.users 0).conn = [utf8 "您已更新用户名为：alice\n"] ∧
      s'.Message = twoJoined.Message := by
  refine ⟨by decide, by decide, by decide, by decide, ?_⟩
  obtain ⟨s', h1, h2, h3, -, h5, -, h7, -⟩ :=
    rename_to_free_name twoJoined 0 (utf8 "alice") (by decide) (by decide) (by decide)
      (by decide)
  refine ⟨s', h1, h2, h3, ?_, ?_, h7⟩
  · rw [h5]
  · rw [h5]; decide

theorem utf8_pipe : utf8 "|" = [pipe] := by decide

/-- C4 as stated fails.  User 1 of `twoJoined` sends `to|10.0.0.1:1|a|b`: the text after
the second `|` is `a|b`, but the target's connection receives `10.0.0.2:2对您说：a`, the
content cut at its first `|`. -/
theorem to_content_pipe_counterexample :
    mapGet twoJoined.OnlineMap (utf8 "10.0.0.1:1") = some 0 ∧
    ∃ s', DoMessage twoJoined 1 (utf8 "to|" ++ utf8 "10.0.0.1:1" ++ utf8 "|" ++ utf8 "a|b")
        = .ok s' ∧
      (s'.users 0).conn = (twoJoined.users 0).conn ++ [utf8 "10.0.0.2:2对您说：a"] ∧
      (s'.users 0).conn ≠
        (twoJoined.users 0).conn ++ [(twoJoined.users 1).Name ++ utf8 "对您说：" ++ utf8 "a|b"] :=
  ⟨by decide, _, rfl, by decide, by decide⟩

/-- C4, amended.  For a registered target name `t` (non-empty, without `|`) and a
non-empty text `c` without `|`, `DoMessage` on `to|t|c` completes, appends exactly the
bytes `<senderName>对您说：c` (no newline) to the target's connection and changes nothing
else: every user other than the target, the target's name and channel, the broadcast
channel and the registry are unchanged. -/
theorem to_delivers (s : State) (this target : UserPtr) (t c : GoString)
    (ht : t ≠ []) (htp : pipe ∉ t) (hc : c ≠ []) (hcp : pipe ∉ c)
    (hkey : mapGet s.OnlineMap t = some target) :
    ∃ s', DoMessage s this (utf8 "to|" ++ t ++ utf8 "|" ++ c) = .ok s' ∧
      s'.users target =
        { (s.users target) with
          conn := (s.users target).conn ++ [(s.users this).Name ++ utf8 "对您说：" ++ c] } ∧
      (∀ v, v ≠ target → s'.users v = s.users v) ∧
      s'.Message = s.Message ∧
      s'.OnlineMap = s.OnlineMap := by
  have hsplit : Split pipe (t ++ pipe :: c) = [t, c] := by
    rw [Split_append_sep pipe t c htp, Split_of_not_mem pipe c hcp]
  have hne : t ++ pipe :: c ≠ [] := by simp
  have h := DoMessage_to s this (t ++ pipe :: c) t [c] hne hsplit
  rw [if_neg ht, hkey] at h
  simp only [List.head?_cons, if_neg hc] at h
  have hline : utf8 "to|" ++ t ++ utf8 "|" ++ c = utf8 "to|" ++ (t ++ pipe :: c) := by
    simp [utf8_pipe]
  rw [hline]
  exact ⟨_, h, by simp, fun v hv => SendMsg_users_of_ne s target v _ hv, rfl, rfl⟩

/-- Witness for C4 amended: user 1 of `twoJoined` sends `to|10.0.0.1:1|hi`. -/
theorem to_delivers_witness :
    utf8 "10.0.0.1:1" ≠ [] ∧ pipe ∉ utf8 "10.0.0.1:1" ∧ utf8 "hi" ≠ [] ∧ pipe ∉ utf8 "hi" ∧
    mapGet twoJoined.OnlineMap (utf8 "10.0.0.1:1") = some 0 ∧
    ∃ s', DoMessage twoJoined 1 (utf8 "to|" ++ utf8 "10.0.0.1:1" ++ utf8 "|" ++ utf8 "hi")
        = .ok s' ∧
      s'.users 0 =
        { (twoJoined.users 0) with
          conn := (twoJoined.users 0).conn ++
            [(twoJoined.users 1).Name ++ utf8 "对您说：" ++ utf8 "hi"] } ∧
      (∀ v, v ≠ 0 → s'.users v = twoJoined.users v) ∧
      s'.Message = twoJoined.Message ∧
      s'.OnlineMap = twoJoined.OnlineMap :=
  ⟨by decide, by decide, by decide, by decide, by decide,
    to_delivers twoJoined 1 0 (utf8 "10.0.0.1:1") (utf8 "hi") (by decide) (by decide)
      (by decide) (by decide) (by decide)⟩

/-- C7 as stated fails.  The lines `rename|` and `to|` alone begin with a command prefix,
but `DoMessage` publishes each of them as chat text on the broadcast channel. -/
theorem bare_prefix_counterexample :
    utf8 "rename|" <+: utf8 "rename|" ∧ utf8 "to|" <+: utf8 "to|" ∧
    (∃ s', DoMessage twoJoined 1 (utf8 "rename|") = .ok s' ∧
      s'.Message = twoJoined.Message ++ [utf8 "[10.0.0.2:2]10.0.0.2:2:rename|"]) ∧
    (∃ s', DoMessage twoJoined 1 (utf8 "to|") = .ok s' ∧
      s'.Message = twoJoined.Message ++ [utf8 "[10.0.0.2:2]10.0.0.2:2:to|"]) :=
  ⟨List.prefix_refl _, List.prefix_refl _, ⟨_, rfl, by decide⟩, ⟨_, rfl, by decide⟩⟩

/-- C1 fails on the code.  In `twoJoined` the name `10.0.0.1:1` is registered; when user
1 sends `to|10.0.0.1:1` the split line has two pieces and `DoMessage` panics on the
index `[2]`. -/
theorem to_without_content_panics :
    utf8 "to|" <+: utf8 "to|10.0.0.1:1" ∧
    mapGet twoJoined.OnlineMap (utf8 "10.0.0.1:1") = some 0 ∧
    Split pipe (utf8 "to|10.0.0.1:1") = [utf8 "to", utf8 "10.0.0.1:1"] ∧
    DoMessage twoJoined 1 (utf8 "to|10.0.0.1:1") = .error .indexOutOfRange :=
  ⟨by decide, by decide, by decide, rfl⟩

/-! ## The registry invariant -/

theorem Consistent_NewServer : Consistent NewServer := by
  refine ⟨?_, ?_, ?_⟩
  · simp [NodupKeys, NewServer]
  · intro e he; simp [NewServer] at he
  · intro e he; simp [NewServer] at he

/-- `Consistent` reads the map, the users' names and the allocation counter only. -/
theorem Consistent_congr (s s' : State) (hm : s'.OnlineMap = s.OnlineMap)
    (hn : ∀ v, (s'.users v).Name = (s.users v).Name) (ha : s'.allocated = s.allocated)
    (h : Consistent s) : Consistent s' := by
  unfold Consistent at *
  rw [hm, ha]
  exact ⟨h.1, fun e he => (hn e.2).trans (h.2.1 e he), h.2.2⟩

theorem Consistent_NewUser (s : State) (userAddr : GoString) (h : Consistent s) :
    Consistent (NewUser s userAddr).1 := by
  refine ⟨h.1, ?_, ?_⟩
  · intro e he
    have hlt : e.2 < s.allocated := h.2.2 e he
    have hne : e.2 ≠ s.allocated := Nat.ne_of_lt hlt
    simp only [NewUser, Function.update_noteq hne]
    exact h.2.1 e he
  · intro e he
    exact Nat.lt_succ_of_lt (h.2.2 e he)

theorem Consistent_Online (s : State) (this : UserPtr) (h : Consistent s)
    (ha : this < s.allocated) : Consistent (Online s this) := by
  refine ⟨NodupKeys_mapSet _ _ _ h.1, ?_, ?_⟩
  · intro e he
    rcases (mem_mapSet _ _ _ e).mp he with ⟨h0, -⟩ | h1
    · exact h.2.1 e h0
    · rw [h1]; rfl
  · intro e he
    rcases (mem_mapSet _ _ _ e).mp he with ⟨h0, -⟩ | h1
    · exact h.2.2 e h0
    · rw [h1]; exact ha

theorem Consistent_Offline (s : State) (this : UserPtr) (h : Consistent s) :
    Consistent (Offline s this) := by
  refine ⟨NodupKeys_mapDelete _ _ h.1, ?_, ?_⟩
  · intro e he
    exact h.2.1 e ((mem_mapDelete _ _ e).mp he).1
  · intro e he
    exact h.2.2 e ((mem_mapDelete _ _ e).mp he).1

theorem Consistent_SendMsg (s : State) (this : UserPtr) (msg : GoString) (h : Consistent s) :
    Consistent (SendMsg s this msg) :=
  Consistent_congr s _ rfl (fun v => SendMsg_users_Name s this v msg) rfl h

theorem Consistent_rename (s : State) (this : UserPtr) (n : GoString) (h : Consistent s)
    (ha : this < s.allocated) :
    Consistent (renameSetName (renameUpdateMap s this n) this n) := by
  obtain ⟨hmap, hthis, hothers, -, halloc⟩ := rename_result s this n
  refine ⟨?_, ?_, ?_⟩
  · rw [hmap]
    exact NodupKeys_mapSet _ _ _ (NodupKeys_mapDelete _ _ h.1)
  · intro e he
    rw [hmap, mem_mapSet, mem_mapDelete] at he
    rcases he with ⟨⟨h0, h1⟩, -⟩ | h1
    · have hv : e.2 ≠ this := by
        intro ev
        have := h.2.1 e h0
        rw [ev] at this
        exact h1 this.symm
      rw [hothers e.2 hv]
      exact h.2.1 e h0
    · rw [h1, hthis]
  · intro e he
    rw [halloc]
    rw [hmap, mem_mapSet, mem_mapDelete] at he
    rcases he with ⟨⟨h0, -⟩, -⟩ | h1
    · exact h.2.2 e h0
    · rw [h1]; exact ha

/-- `DoMessage` preserves the registry invariant, whatever the line. -/
theorem Consistent_DoMessage (s s' : State) (this : UserPtr) (msg : GoString)
    (h : Consistent s) (ha : this < s.allocated) (hd : DoMessage s this msg = .ok s') :
    Consistent s' := by
  unfold DoMessage at hd
  split at hd
  · rw [who_loop] at hd
    cases hd
    refine Consistent_congr s _ rfl (fun v => ?_) rfl h
    by_cases hv : v = this
    · subst hv; simp
    · simp [Function.update_noteq hv]
  · split at hd
    · split at hd
      · cases hd
      · split at hd
        · cases hd; exact Consistent_SendMsg s this _ h
        · cases hd; exact Consistent_rename s this _ h ha
    · split at hd
      · split at hd
        · cases hd
        · split at hd
          · cases hd; exact Consistent_SendMsg s this _ h
          · split at hd
            · cases hd; exact Consistent_SendMsg s this _ h
            · split at hd
              · cases hd
              · split at hd
                · cases hd; exact Consistent_SendMsg s this _ h
                · cases hd; exact Consistent_SendMsg s _ _ h
      · cases hd
        exact Consistent_congr s _ rfl (fun _ => rfl) rfl h

/-- The fan-out of `ListenMessager` preserves the registry invariant. -/
theorem Consistent_ListenMessager (s s' : State) (h : Consistent s)
    (hl : ListenMessager s = some s') : Consistent s' := by
  unfold ListenMessager at hl
  split at hl
  · cases hl
  · rw [fanout_loop] at hl
    cases hl
    exact Consistent_congr s _ rfl (fun _ => rfl) rfl h

/-- The delivery step of `ListenMessage` preserves the registry invariant. -/
theorem Consistent_ListenMessage (s s' : State) (this : UserPtr) (h : Consistent s)
    (hl : ListenMessage s this = some s') : Consistent s' := by
  unfold ListenMessage at hl
  split at hl
  · cases hl
  · cases hl
    refine Consistent_congr s _ rfl (fun v => ?_) rfl h
    by_cases hv : v = this
    · subst hv; simp
    · simp [Function.update_noteq hv]

/-- In a consistent registry no user is the value of two entries. -/
theorem Consistent_values_nodup (s : State) (h : Consistent s) :
    (s.OnlineMap.map Prod.snd).Nodup := by
  have hnd : s.OnlineMap.Nodup := List.Nodup.of_map _ h.1
  refine List.Nodup.map_on ?_ hnd
  intro x hx y hy hxy
  have h1 := h.2.1 x hx
  have h2 := h.2.1 y hy
  rw [hxy, h2] at h1
  exact Prod.ext h1.symm hxy

theorem Consistent_twoJoined : Consistent twoJoined :=
  Consistent_Online _ 1
    (Consistent_NewUser _ _
      (Consistent_Online _ 0 (Consistent_NewUser _ _ Consistent_NewServer) (by decide)))
    (by decide)

/-- C5. In a consistent registry, a line that is not `who` and does not begin with
`rename|` or `to|` is published by `DoMessage` as `[<addr>]<name>:<line>` at the end of
the broadcast channel, with the registry and all users unchanged.  The iteration of
`ListenMessager` that receives this text (any state `t` with the same registry and the
text first on the channel) completes, appends the text exactly once to the channel of
every user in the registry, leaves every other user untouched and leaves the registry
unchanged. -/
theorem chat_reaches_each_registered_once (s : State) (this : UserPtr) (msg : GoString)
    (hc : Consistent s)
    (h1 : msg ≠ utf8 "who") (h2 : ¬ utf8 "rename|" <+: msg) (h3 : ¬ utf8 "to|" <+: msg) :
    ∃ s1, DoMessage s this msg = .ok s1 ∧
      s1.Message = s.Message ++
        [utf8 "[" ++ (s.users this).Addr ++ utf8 "]" ++ (s.users this).Name ++ utf8 ":" ++ msg] ∧
      s1.OnlineMap = s.OnlineMap ∧ s1.users = s.users ∧
      ∀ (t : State) (rest : List GoString), t.OnlineMap = s1.OnlineMap →
        t.Message =
          (utf8 "[" ++ (s.users this).Addr ++ utf8 "]" ++ (s.users this).Name ++ utf8 ":" ++ msg)
            :: rest →
        ∃ t', ListenMessager t = some t' ∧
          t'.OnlineMap = s.OnlineMap ∧
          t'.Message = rest ∧
          (∀ v, Registered s v →
            t'.users v =
              { (t.users v) with
                C := (t.users v).C ++
                  [utf8 "[" ++ (s.users this).Addr ++ utf8 "]" ++ (s.users this).Name
                    ++ utf8 ":" ++ msg] }) ∧
          (∀ v, ¬ Registered s v → t'.users v = t.users v) := by
  refine ⟨_, DoMessage_chat s this msg h1 h2 h3, rfl, rfl, rfl, ?_⟩
  intro t rest hmap hmsg
  have hmap' : t.OnlineMap = s.OnlineMap := hmap
  have hl : ListenMessager t =
      some (t.OnlineMap.foldl
        (fun acc e => chanSend acc e.2
          (utf8 "[" ++ (s.users this).Addr ++ utf8 "]" ++ (s.users this).Name ++ utf8 ":"
            ++ msg))
        { t with Message := rest }) := by
    simp [ListenMessager, hmsg]
  rw [fanout_loop] at hl
  have hreg : ∀ v, Registered s v ↔ v ∈ t.OnlineMap.map Prod.snd := by
    intro v
    rw [hmap']
    simp [Registered]
  have hnd : (t.OnlineMap.map Prod.snd).Nodup := by
    rw [hmap']
    exact Consistent_values_nodup s hc
  refine ⟨_, hl, hmap', rfl, ?_, ?_⟩
  · intro v hv
    have hcount : (t.OnlineMap.map Prod.snd).count v = 1 :=
      List.count_eq_one_of_mem hnd ((hreg v).mp hv)
    simp [hcount]
  · intro v hv
    have hcount : (t.OnlineMap.map Prod.snd).count v = 0 :=
      List.count_eq_zero_of_not_mem (fun h => hv ((hreg v).mpr h))
    simp [hcount]

/-- Witness for C5: user 1 of `twoJoined` sends `hello`; the text is queued behind the
two join notices still on the channel, and the iteration that receives it (here with
both channels empty) hands it once to user 0 and once to user 1. -/
theorem chat_reaches_each_registered_once_witness :
    Consistent twoJoined ∧
    utf8 "hello" ≠ utf8 "who" ∧ ¬ utf8 "rename|" <+: utf8 "hello" ∧
    ¬ utf8 "to|" <+: utf8 "hello" ∧
    ∃ s1, DoMessage twoJoined 1 (utf8 "hello") = .ok s1 ∧
      s1.Message = twoJoined.Message ++ [utf8 "[10.0.0.2:2]10.0.0.2:2:hello"] ∧
      s1.OnlineMap = twoJoined.OnlineMap ∧
      ∃ t, ListenMessager { s1 with Message := [utf8 "[10.0.0.2:2]10.0.0.2:2:hello"] }
          = some t ∧
        (t.users 0).C = (s1.users 0).C ++ [utf8 "[10.0.0.2:2]10.0.0.2:2:hello"] ∧
        (t.users 1).C = (s1.users 1).C ++ [utf8 "[10.0.0.2:2]10.0.0.2:2:hello"] := by
  refine ⟨Consistent_twoJoined, by decide, by decide, by decide, ?_⟩
  obtain ⟨s1, hd, hm, ho, -, hfan⟩ :=
    chat_reaches_each_registered_once twoJoined 1 (utf8 "hello") Consistent_twoJoined
      (by decide) (by decide) (by decide)
  have htext : utf8 "[" ++ (twoJoined.users 1).Addr ++ utf8 "]" ++ (twoJoined.users 1).Name
      ++ utf8 ":" ++ utf8 "hello" = utf8 "[10.0.0.2:2]10.0.0.2:2:hello" := by decide
  rw [htext] at hm hfan
  obtain ⟨t, hl, -, -, hin, -⟩ :=
    hfan { s1 with Message := [utf8 "[10.0.0.2:2]10.0.0.2:2:hello"] } [] rfl rfl
  refine ⟨s1, hd, hm, ho, t, hl, ?_, ?_⟩
  · rw [hin 0 ⟨utf8 "10.0.0.1:1", by decide⟩]
  · rw [hin 1 ⟨utf8 "10.0.0.2:2", by decide⟩]

/-- C9 fails on the code.  After `collisionTrace` users 0 and 1 are both live and have
different addresses, yet both bear the name `10.0.0.1:5`, and the registry maps that name
to user 1 only: `Online` stored user 1 over the entry of user 0. -/
theorem join_overwrites_renamed_user :
    wellFormed 0 collisionTrace ∧
    live 0 collisionTrace = [0, 1] ∧
    ∃ s, run NewServer collisionTrace = .ok s ∧
      (s.users 0).Addr = utf8 "10.0.0.2:7" ∧ (s.users 1).Addr = utf8 "10.0.0.1:5" ∧
      (s.users 0).Addr ≠ (s.users 1).Addr ∧
      (s.users 0).Name = utf8 "10.0.0.1:5" ∧ (s.users 1).Name = utf8 "10.0.0.1:5" ∧
      s.OnlineMap = [(utf8 "10.0.0.1:5", 1)] ∧
      mapGet s.OnlineMap (s.users 0).Name ≠ some 0 :=
  ⟨by simp [wellFormed, collisionTrace], by decide, _, rfl, by decide, by decide, by decide,
    by decide, by decide, by decide, by decide⟩

/-- Run alone, the three steps of a rename task are the rename branch of `DoMessage`. -/
theorem runTwo_alone (s : State) (this : UserPtr) (n : GoString) (b : RenameTask)
    (hne : n ≠ []) (hpipe : pipe ∉ n) :
    DoMessage s this (utf8 "rename|" ++ n) =
      .ok (runTwo s { this := this, newName := n, pc := .atCheck } b
        [false, false, false]).1 := by
  rw [DoMessage_rename s this n n [] hne (Split_of_not_mem pipe n hpipe)]
  cases h : (mapGet s.OnlineMap n).isSome <;> simp [runTwo, stepRename, h]

/-- C10 fails on the code.  The name `carol` is free in `twoJoined`.  When users 0 and 1
both run the existence check of line 102 before either updates the map, both take the
success path: both finish, both receive `您已更新用户名为：carol\n`, neither receives the
conflict notice, both bear the name `carol`, and the registry holds only user 1. -/
theorem rename_race_both_succeed :
    mapGet twoJoined.OnlineMap (utf8 "carol") = none ∧
    raceOutcome.2.1.pc = .done ∧ raceOutcome.2.2.pc = .done ∧
    (raceOutcome.1.users 0).conn = [utf8 "您已更新用户名为：carol\n"] ∧
    (raceOutcome.1.users 1).conn = [utf8 "您已更新用户名为：carol\n"] ∧
    (raceOutcome.1.users 0).Name = utf8 "carol" ∧
    (raceOutcome.1.users 1).Name = utf8 "carol" ∧
    raceOutcome.1.OnlineMap = [(utf8 "carol", 1)] := by
  decide

/-! ## The invariant along a sequence of events -/

theorem DoMessage_allocated (s s' : State) (this : UserPtr) (msg : GoString)
    (hd : DoMessage s this msg = .ok s') : s'.allocated = s.allocated := by
  unfold DoMessage at hd
  split at hd
  · rw [who_loop] at hd
    cases hd
    rfl
  · split at hd
    · split at hd
      · cases hd
      · split at hd <;> cases hd <;> rfl
    · split at hd
      · split at hd
        · cases hd
        · split at hd
          · cases hd; rfl
          · split at hd
            · cases hd; rfl
            · split at hd
              · cases hd
              · split at hd <;> cases hd <;> rfl
      · cases hd
        rfl

/-- Every state reached from a consistent one by joins, renames and leaves of existing
users is consistent. -/
theorem Consistent_run (es : List Event) (s s' : State) (h : Consistent s)
    (hw : wellFormed s.allocated es) (hr : run s es = .ok s') : Consistent s' := by
  induction es generalizing s with
  | nil =>
    simp only [run] at hr
    cases hr
    exact h
  | cons e es ih =>
    cases e with
    | join addr =>
      simp only [run, step] at hr
      simp only [wellFormed] at hw
      exact ih _ (Consistent_Online _ _ (Consistent_NewUser s addr h) (by simp [NewUser]))
        (by simpa [Online, BroadCast, NewUser] using hw) hr
    | rename this n =>
      simp only [run, step] at hr
      simp only [wellFormed] at hw
      cases hd : DoMessage s this (utf8 "rename|" ++ n) with
      | error err => rw [hd] at hr; cases hr
      | ok s1 =>
        rw [hd] at hr
        refine ih s1 (Consistent_DoMessage s s1 this _ h hw.1 hd) ?_ hr
        rw [DoMessage_allocated s s1 this _ hd]
        exact hw.2
    | leave this =>
      simp only [run, step] at hr
      simp only [wellFormed] at hw
      exact ih _ (Consistent_Offline s this h) (by simpa [Offline, BroadCast] using hw.2) hr


/-! ## When `DoMessage` panics -/

/-- A string longer than `k` whose first `k` bytes are `p` is `p` followed by a non-empty
rest. -/
theorem exists_rest_of_take (msg p : GoString) (k : Nat) (hl : msg.length > k)
    (ht : msg.take k = p) : ∃ rest, rest ≠ [] ∧ msg = p ++ rest := by
  refine ⟨msg.drop k, ?_, ?_⟩
  · intro h
    have := congrArg List.length h
    simp at this
    omega
  · rw [← ht, List.take_append_drop]

/-- The only run-time failure of `DoMessage`: a line `to|t` without a second `|` whose
non-empty target `t` is registered.  On every other line `DoMessage` completes. -/
theorem DoMessage_error_iff (s : State) (this : UserPtr) (msg : GoString) (err : RuntimeError) :
    DoMessage s this msg = .error err ↔
      ∃ t target, msg = utf8 "to|" ++ t ∧ t ≠ [] ∧ pipe ∉ t ∧
        mapGet s.OnlineMap t = some target := by
  constructor
  · intro hd
    by_cases h1 : msg = utf8 "who"
    · rw [h1, DoMessage_who] at hd
      cases hd
    by_cases h2 : msg.length > 7 ∧ msg.take 7 = utf8 "rename|"
    · obtain ⟨rest, hne, rfl⟩ := exists_rest_of_take msg _ 7 h2.1 h2.2
      obtain ⟨p, ps, hs, -, -⟩ := Split_head pipe rest
      rw [DoMessage_rename s this rest p ps hne hs] at hd
      split at hd <;> cases hd
    by_cases h3 : msg.length > 3 ∧ msg.take 3 = utf8 "to|"
    · obtain ⟨rest, hne, rfl⟩ := exists_rest_of_take msg _ 3 h3.1 h3.2
      rcases exists_first_sep pipe rest with hno | ⟨a, b, hab, ha⟩
      · rw [DoMessage_to s this rest rest [] hne (Split_of_not_mem pipe rest hno),
          if_neg hne] at hd
        cases hg : mapGet s.OnlineMap rest with
        | none => rw [hg] at hd; cases hd
        | some target => exact ⟨rest, target, rfl, hne, hno, hg⟩
      · obtain ⟨c, cs, hcs, -, -⟩ := Split_head pipe b
        have hs : Split pipe rest = a :: c :: cs := by
          rw [hab, Split_append_sep pipe a b ha, hcs]
        rw [DoMessage_to s this rest a (c :: cs) hne hs] at hd
        split at hd
        · cases hd
        · split at hd
          · cases hd
          · simp only [List.head?_cons] at hd
            split at hd <;> cases hd
    · unfold DoMessage at hd
      rw [if_neg h1, if_neg h2, if_neg h3] at hd
      cases hd
  · rintro ⟨t, target, rfl, hne, hno, hg⟩
    rw [DoMessage_to s this t t [] hne (Split_of_not_mem pipe t hno), if_neg hne, hg]
    cases err
    rfl

/-- Without interleaving the race does not occur: when user 0 of `twoJoined` finishes
`rename|carol` before user 1 starts, user 0 is renamed and user 1 receives the conflict
notice. -/
theorem rename_in_turn_one_succeeds :
    ((runTwo twoJoined
        { this := 0, newName := utf8 "carol", pc := .atCheck }
        { this := 1, newName := utf8 "carol", pc := .atCheck }
        [false, false, false, true, true, true]).1.users 0).conn
      = [utf8 "您已更新用户名为：carol\n"] ∧
    ((runTwo twoJoined
        { this := 0, newName := utf8 "carol", pc := .atCheck }
        { this := 1, newName := utf8 "carol", pc := .atCheck }
        [false, false, false, true, true, true]).1.users 1).conn
      = [utf8 "当前用户名已被使用！\n"] := by
  decide


/-! ## Names never contain the separator -/

/-- No piece of a split contains the separator. -/
theorem Split_pieces (sep : UInt8) (s : GoString) : ∀ p ∈ Split sep s, sep ∉ p := by
  induction s with
  | nil => simp [Split]
  | cons c cs ih =>
    unfold Split
    split
    · intro p hp
      rcases List.mem_cons.mp hp with h | h
      · simp [h]
      · exact ih p h
    · rename_i hc
      split
      · intro p hp
        simp at hp
        subst hp
        simpa using fun e => hc e.symm
      · rename_i q qs hq
        intro p hp
        rcases List.mem_cons.mp hp with h | h
        · subst h
          have hq1 : sep ∉ q := ih q (by rw [hq]; simp)
          intro hmem
          rcases List.mem_cons.mp hmem with h1 | h1
          · exact hc h1.symm
          · exact hq1 h1
        · exact ih p (by rw [hq]; exact List.mem_cons_of_mem _ h)

theorem PipeFree_NewServer : PipeFree NewServer := by
  refine ⟨?_, ?_⟩
  · intro e he; simp [NewServer] at he
  · intro v; simp [NewServer, User.zero]

/-- `PipeFree` reads the map and the users' names only. -/
theorem PipeFree_congr (s s' : State) (hm : s'.OnlineMap = s.OnlineMap)
    (hn : ∀ v, (s'.users v).Name = (s.users v).Name) (h : PipeFree s) : PipeFree s' := by
  unfold PipeFree at *
  rw [hm]
  exact ⟨h.1, fun v => by rw [hn v]; exact h.2 v⟩

theorem PipeFree_NewUser (s : State) (userAddr : GoString) (h : PipeFree s)
    (ha : pipe ∉ userAddr) : PipeFree (NewUser s userAddr).1 := by
  refine ⟨h.1, ?_⟩
  intro v
  by_cases hv : v = s.allocated
  · subst hv; simpa [NewUser] using ha
  · simpa [NewUser, Function.update_noteq hv] using h.2 v

theorem PipeFree_Online (s : State) (this : UserPtr) (h : PipeFree s) :
    PipeFree (Online s this) := by
  refine ⟨?_, h.2⟩
  intro e he
  rcases (mem_mapSet _ _ _ e).mp he with ⟨h0, -⟩ | h1
  · exact h.1 e h0
  · rw [h1]; exact h.2 this

theorem PipeFree_Offline (s : State) (this : UserPtr) (h : PipeFree s) :
    PipeFree (Offline s this) := by
  refine ⟨?_, h.2⟩
  intro e he
  exact h.1 e ((mem_mapDelete _ _ e).mp he).1

theorem PipeFree_SendMsg (s : State) (this : UserPtr) (msg : GoString) (h : PipeFree s) :
    PipeFree (SendMsg s this msg) :=
  PipeFree_congr s _ rfl (fun v => SendMsg_users_Name s this v msg) h

theorem PipeFree_rename (s : State) (this : UserPtr) (n : GoString) (h : PipeFree s)
    (hn : pipe ∉ n) : PipeFree (renameSetName (renameUpdateMap s this n) this n) := by
  obtain ⟨hmap, hthis, hothers, -, -⟩ := rename_result s this n
  refine ⟨?_, ?_⟩
  · intro e he
    rw [hmap, mem_mapSet, mem_mapDelete] at he
    rcases he with ⟨⟨h0, -⟩, -⟩ | h1
    · exact h.1 e h0
    · rw [h1]; exact hn
  · intro v
    by_cases hv : v = this
    · subst hv; rw [hthis]; exact hn
    · rw [hothers v hv]; exact h.2 v

/-- `DoMessage` never stores a name that contains `|`, whatever the line. -/
theorem PipeFree_DoMessage (s s' : State) (this : UserPtr) (msg : GoString)
    (h : PipeFree s) (hd : DoMessage s this msg = .ok s') : PipeFree s' := by
  unfold DoMessage at hd
  split at hd
  · rw [who_loop] at hd
    cases hd
    refine PipeFree_congr s _ rfl (fun v => ?_) h
    by_cases hv : v = this
    · subst hv; simp
    · simp [Function.update_noteq hv]
  · split at hd
    · split at hd
      · cases hd
      · rename_i newName hpiece
        split at hd
        · cases hd; exact PipeFree_SendMsg s this _ h
        · cases hd
          exact PipeFree_rename s this _ h
            (Split_pieces pipe msg newName (List.getElem?_mem hpiece))
    · split at hd
      · split at hd
        · cases hd
        · split at hd
          · cases hd; exact PipeFree_SendMsg s this _ h
          · split at hd
            · cases hd; exact PipeFree_SendMsg s this _ h
            · split at hd
              · cases hd
              · split at hd
                · cases hd; exact PipeFree_SendMsg s this _ h
                · cases hd; exact PipeFree_SendMsg s _ _ h
      · cases hd
        exact PipeFree_congr s _ rfl (fun _ => rfl) h

theorem PipeFree_ListenMessager (s s' : State) (h : PipeFree s)
    (hl : ListenMessager s = some s') : PipeFree s' := by
  unfold ListenMessager at hl
  split at hl
  · cases hl
  · rw [fanout_loop] at hl
    cases hl
    exact PipeFree_congr s _ rfl (fun _ => rfl) h

theorem PipeFree_ListenMessage (s s' : State) (this : UserPtr) (h : PipeFree s)
    (hl : ListenMessage s this = some s') : PipeFree s' := by
  unfold ListenMessage at hl
  split at hl
  · cases hl
  · cases hl
    refine PipeFree_congr s _ rfl (fun v => ?_) h
    by_cases hv : v = this
    · subst hv; simp
    · simp [Function.update_noteq hv]

/-- Every state reached from a pipe-free one by joins from addresses without `|`, renames
and leaves is pipe-free. -/
theorem PipeFree_run (es : List Event) (s s' : State) (h : PipeFree s)
    (ha : pipeFreeAddrs es) (hr : run s es = .ok s') : PipeFree s' := by
  induction es generalizing s with
  | nil =>
    simp only [run] at hr
    cases hr
    exact h
  | cons e es ih =>
    cases e with
    | join addr =>
      simp only [run, step] at hr
      simp only [pipeFreeAddrs] at ha
      exact ih _ (PipeFree_Online _ _ (PipeFree_NewUser s addr h ha.1)) ha.2 hr
    | rename this n =>
      simp only [run, step] at hr
      simp only [pipeFreeAddrs] at ha
      cases hd : DoMessage s this (utf8 "rename|" ++ n) with
      | error err => rw [hd] at hr; cases hr
      | ok s1 =>
        rw [hd] at hr
        exact ih s1 (PipeFree_DoMessage s s1 this _ h hd) ha hr
    | leave this =>
      simp only [run, step] at hr
      simp only [pipeFreeAddrs] at ha
      exact ih _ (PipeFree_Offline s this h) ha hr

theorem PipeFree_twoJoined : PipeFree twoJoined :=
  PipeFree_Online _ 1
    (PipeFree_NewUser _ _
      (PipeFree_Online _ 0 (PipeFree_NewUser _ _ PipeFree_NewServer (by decide)))
      (by decide))

/-- C3. In every state whose names contain no `|` (every state the server reaches from
addresses without `|`: `PipeFree_run`), for every non-empty `n` that is already a key of
the registry (the requester's own name included), `DoMessage` on `rename|n` completes,
appends exactly `当前用户名已被使用！\n` to the requester's connection and changes nothing
else: the registry, the requester's name, every other user and the broadcast channel are
unchanged. -/
theorem rename_to_taken_name (s : State) (this owner : UserPtr) (n : GoString)
    (hinv : PipeFree s) (hne : n ≠ []) (hkey : mapGet s.OnlineMap n = some owner) :
    ∃ s', DoMessage s this (utf8 "rename|" ++ n) = .ok s' ∧
      s'.OnlineMap = s.OnlineMap ∧
      s'.users this =
        { (s.users this) with
          conn := (s.users this).conn ++ [utf8 "当前用户名已被使用！\n"] } ∧
      (∀ v, v ≠ this → s'.users v = s.users v) ∧
      s'.Message = s.Message := by
  have hpipe : pipe ∉ n := hinv.1 (n, owner) (mem_of_mapGet_eq_some _ _ _ hkey)
  have hd := DoMessage_rename s this n n [] hne (Split_of_not_mem pipe n hpipe)
  rw [hkey] at hd
  simp only [Option.isSome_some, if_true] at hd
  exact ⟨_, hd, rfl, by simp, fun v hv => SendMsg_users_of_ne s this v _ hv, rfl⟩

/-- Witness for C3: user 1 of `twoJoined` asks for the name of user 0. -/
theorem rename_to_taken_name_witness :
    PipeFree twoJoined ∧ utf8 "10.0.0.1:1" ≠ [] ∧
    mapGet twoJoined.OnlineMap (utf8 "10.0.0.1:1") = some 0 ∧
    ∃ s', DoMessage twoJoined 1 (utf8 "rename|" ++ utf8 "10.0.0.1:1") = .ok s' ∧
      s'.OnlineMap = twoJoined.OnlineMap ∧
      s'.users 1 =
        { (twoJoined.users 1) with
          conn := (twoJoined.users 1).conn ++ [utf8 "当前用户名已被使用！\n"] } ∧
      (∀ v, v ≠ 1 → s'.users v = twoJoined.users v) ∧
      s'.Message = twoJoined.Message :=
  ⟨PipeFree_twoJoined, by decide, by decide,
    rename_to_taken_name twoJoined 1 0 (utf8 "10.0.0.1:1") PipeFree_twoJoined (by decide)
      (by decide)⟩


/-! ## Command lines -/

theorem SendMsg_users_C (s : State) (this v : UserPtr) (msg : GoString) :
    ((SendMsg s this msg).users v).C = (s.users v).C := by
  by_cases h : v = this
  · subst h; simp
  · rw [SendMsg_users_of_ne s this v msg h]

/-- The bare lines `rename|` and `to|` are chat text in every state. -/
theorem bare_prefix_is_chat (s : State) (this : UserPtr) :
    DoMessage s this (utf8 "rename|") = .ok (BroadCast s this (utf8 "rename|")) ∧
    DoMessage s this (utf8 "to|") = .ok (BroadCast s this (utf8 "to|")) := by
  constructor
  · simp [DoMessage, utf8_rename, utf8_who, utf8_to]
  · simp [DoMessage, utf8_rename, utf8_who, utf8_to]

/-- The pieces of a field `t` followed by nothing or by `|` and more text. -/
theorem Split_field (t x : GoString) (ht : pipe ∉ t) (hx : x = [] ∨ ∃ b, x = pipe :: b) :
    ∃ tl, Split pipe (t ++ x) = t :: tl ∧ (x = [] → tl = []) ∧
      (∀ b, x = pipe :: b → tl = Split pipe b) := by
  rcases hx with h | ⟨b, h⟩
  · subst h
    refine ⟨[], by simpa using Split_of_not_mem pipe t ht, fun _ => rfl, ?_⟩
    intro b hb
    cases hb
  · subst h
    refine ⟨Split pipe b, Split_append_sep pipe t b ht, ?_, ?_⟩
    · intro hb; cases hb
    · intro b2 hb
      cases hb
      rfl

/-- C7, amended.  A line made of `rename|` or `to|` followed by at least one more byte is
`<prefix>t x`, where the field `t` has no `|` and `x` is empty or starts with `|`.  On
every such line `DoMessage` acts as a command and publishes nothing:
`rename|t...` completes with the broadcast channel, all channels and all other users
unchanged; when `t` is a key, the only effect is the conflict notice written to the
sender, otherwise the sender's connection receives the confirmation.
`to|t...` with an empty `t` writes the format notice to the sender and does nothing else;
with a `t` that is not a key it writes the not-found notice to the sender and does nothing
else; with a registered `t` followed by `|c`, an empty `c` yields the empty-content notice
to the sender and nothing else, and a non-empty `c` is written to the target and nothing
else; in all these cases, that is whenever the line is not `to|t` with a registered `t`
and no second `|`, `DoMessage` completes with the broadcast channel, the registry and all
channels and names unchanged. -/
theorem command_not_published (s : State) (this : UserPtr) (t x : GoString)
    (ht : pipe ∉ t) (hx : x = [] ∨ ∃ b, x = pipe :: b) (hne : t ++ x ≠ []) :
    (∃ s', DoMessage s this (utf8 "rename|" ++ t ++ x) = .ok s' ∧
      s'.Message = s.Message ∧
      (∀ v, (s'.users v).C = (s.users v).C) ∧
      (∀ v, v ≠ this → s'.users v = s.users v) ∧
      (∀ owner, mapGet s.OnlineMap t = some owner →
        s' = SendMsg s this (utf8 "当前用户名已被使用！\n")) ∧
      (mapGet s.OnlineMap t = none →
        (s'.users this).conn =
          (s.users this).conn ++ [utf8 "您已更新用户名为：" ++ t ++ utf8 "\n"])) ∧
    (t = [] →
      DoMessage s this (utf8 "to|" ++ t ++ x) =
        .ok (SendMsg s this
          (utf8 "消息格式不正确，请使用\"to|对方用户名|消息内容\"格式。\n"))) ∧
    (t ≠ [] → mapGet s.OnlineMap t = none →
      DoMessage s this (utf8 "to|" ++ t ++ x) =
        .ok (SendMsg s this (utf8 "该用户名不存在！\n"))) ∧
    (∀ (target : UserPtr) (c y : GoString), t ≠ [] → mapGet s.OnlineMap t = some target →
      x = pipe :: (c ++ y) → pipe ∉ c → (y = [] ∨ ∃ d, y = pipe :: d) →
      (c = [] →
        DoMessage s this (utf8 "to|" ++ t ++ x) =
          .ok (SendMsg s this (utf8 "消息内容为空！请重新输入！\n"))) ∧
      (c ≠ [] →
        DoMessage s this (utf8 "to|" ++ t ++ x) =
          .ok (SendMsg s target ((s.users this).Name ++ utf8 "对您说：" ++ c)))) ∧
    ((x = [] → mapGet s.OnlineMap t = none) →
      ∃ s', DoMessage s this (utf8 "to|" ++ t ++ x) = .ok s' ∧
        s'.Message = s.Message ∧ s'.OnlineMap = s.OnlineMap ∧
        (∀ v, (s'.users v).C = (s.users v).C) ∧
        (∀ v, (s'.users v).Name = (s.users v).Name)) := by
  obtain ⟨tl, hsplit, htl0, htl1⟩ := Split_field t x ht hx
  have hrn := DoMessage_rename s this (t ++ x) t tl hne hsplit
  have hto := DoMessage_to s this (t ++ x) t tl hne hsplit
  rw [← List.append_assoc] at hrn hto
  have hfmt : t = [] →
      DoMessage s this (utf8 "to|" ++ t ++ x) =
        .ok (SendMsg s this
          (utf8 "消息格式不正确，请使用\"to|对方用户名|消息内容\"格式。\n")) := by
    intro h0
    rw [hto, if_pos h0]
  have hnf : t ≠ [] → mapGet s.OnlineMap t = none →
      DoMessage s this (utf8 "to|" ++ t ++ x) =
        .ok (SendMsg s this (utf8 "该用户名不存在！\n")) := by
    intro h0 hg
    rw [hto, if_neg h0, hg]
  have hdel : ∀ (target : UserPtr) (c y : GoString), t ≠ [] →
      mapGet s.OnlineMap t = some target →
      x = pipe :: (c ++ y) → pipe ∉ c → (y = [] ∨ ∃ d, y = pipe :: d) →
      (c = [] →
        DoMessage s this (utf8 "to|" ++ t ++ x) =
          .ok (SendMsg s this (utf8 "消息内容为空！请重新输入！\n"))) ∧
      (c ≠ [] →
        DoMessage s this (utf8 "to|" ++ t ++ x) =
          .ok (SendMsg s target ((s.users this).Name ++ utf8 "对您说：" ++ c))) := by
    intro target c y h0 hg hxc hc hy
    obtain ⟨tl2, hsplit2, -, -⟩ := Split_field c y hc hy
    have htl : tl = c :: tl2 := by rw [htl1 (c ++ y) hxc, hsplit2]
    rw [hto, if_neg h0, hg, htl]
    simp only [List.head?_cons]
    exact ⟨fun h => by rw [if_pos h], fun h => by rw [if_neg h]⟩
  refine ⟨?_, hfmt, hnf, hdel, ?_⟩
  · cases hg : mapGet s.OnlineMap t with
    | none =>
      rw [hg] at hrn
      simp only [Option.isSome_none, Bool.false_eq_true, if_false] at hrn
      obtain ⟨-, hthis, hothers, hmsg, -⟩ := rename_result s this t
      refine ⟨_, hrn, hmsg, ?_, hothers, ?_, ?_⟩
      · intro v
        by_cases hv : v = this
        · subst hv; rw [hthis]
        · rw [hothers v hv]
      · intro owner ho
        cases ho
      · intro _
        rw [hthis]
    | some owner =>
      rw [hg] at hrn
      simp only [Option.isSome_some, if_true] at hrn
      refine ⟨_, hrn, rfl, fun v => SendMsg_users_C s this v _,
        fun v hv => SendMsg_users_of_ne s this v _ hv, fun _ _ => rfl, ?_⟩
      intro h
      cases h
  · intro hns
    have hok : ∀ (u : UserPtr) (m : GoString),
        DoMessage s this (utf8 "to|" ++ t ++ x) = .ok (SendMsg s u m) →
        ∃ s', DoMessage s this (utf8 "to|" ++ t ++ x) = .ok s' ∧
          s'.Message = s.Message ∧ s'.OnlineMap = s.OnlineMap ∧
          (∀ v, (s'.users v).C = (s.users v).C) ∧
          (∀ v, (s'.users v).Name = (s.users v).Name) :=
      fun u m h => ⟨_, h, rfl, rfl, fun v => SendMsg_users_C s u v m,
        fun v => SendMsg_users_Name s u v m⟩
    by_cases h0 : t = []
    · exact hok _ _ (hfmt h0)
    · cases hg : mapGet s.OnlineMap t with
      | none => exact hok _ _ (hnf h0 hg)
      | some target =>
        rcases hx with hx0 | ⟨b, hb⟩
        · rw [hns hx0] at hg
          cases hg
        · rcases exists_first_sep pipe b with hno | ⟨c, d, hcd, hc⟩
          · have hd2 := hdel target b [] h0 hg (by simpa using hb) hno (Or.inl rfl)
            by_cases hb0 : b = []
            · exact hok _ _ (hd2.1 hb0)
            · exact hok _ _ (hd2.2 hb0)
          · have hd2 := hdel target c (pipe :: d) h0 hg (by rw [hb, hcd]) hc
              (Or.inr ⟨d, rfl⟩)
            by_cases hc0 : c = []
            · exact hok _ _ (hd2.1 hc0)
            · exact hok _ _ (hd2.2 hc0)

/-- Witness for C7 amended: user 1 of `twoJoined` sends `to||` (empty target) and receives
the format notice. -/
theorem command_not_published_witness :
    pipe ∉ ([] : GoString) ∧ (utf8 "|" = [] ∨ ∃ b, utf8 "|" = pipe :: b) ∧
    ([] : GoString) ++ utf8 "|" ≠ [] ∧
    DoMessage twoJoined 1 (utf8 "to|" ++ [] ++ utf8 "|") =
      .ok (SendMsg twoJoined 1
        (utf8 "消息格式不正确，请使用\"to|对方用户名|消息内容\"格式。\n")) ∧
    (SendMsg twoJoined 1
      (utf8 "消息格式不正确，请使用\"to|对方用户名|消息内容\"格式。\n")).Message
      = twoJoined.Message :=
  ⟨by decide, Or.inr ⟨[], by decide⟩, by decide,
    (command_not_published twoJoined 1 [] (utf8 "|") (by decide) (Or.inr ⟨[], by decide⟩)
      (by decide)).2.1 rfl,
    rfl⟩

end IM
